import Mathlib

/-!
Verification of the task collection engine of a client-side todo application.

The embedding models, from the TypeScript source:
- the Task record and its enumerated fields (src/types via usage sites);
- the collection mutators of App.tsx: handleCreateTask, handleDeleteTask,
  handleToggleComplete, handleUpdateProgress;
- the statistics aggregator calculateTaskStats and the sorter sortTasks
  (utils/taskUtils);
- the search/status filter of TaskList (filteredTasks);
- the localStorage persistence round trip of App.tsx, with the JavaScript
  Date/ISO-8601 builtins modelled as exact integer calendar arithmetic.

Calendar instants are modelled as integers counting milliseconds since the
Unix epoch (the value JavaScript Date.prototype.getTime returns); the
JavaScript floor divisions by positive constants are written with the
euclidean / and % of Int, which agree with floor division for positive
divisors.
-/

namespace TodoApp

inductive TaskStatus where
  | pending
  | in_progress
  | completed
deriving DecidableEq, Repr

inductive TaskPriority where
  | high
  | medium
  | low
deriving DecidableEq, Repr

inductive TaskCategory where
  | work
  | personal
  | urgent
  | other
deriving DecidableEq, Repr

structure Task where
  id : String
  title : String
  description : String
  startDate : Int
  dueDate : Int
  completionPercentage : Int
  status : TaskStatus
  category : TaskCategory
  priority : TaskPriority
  isCompleted : Bool
  createdAt : Int
  updatedAt : Int
deriving DecidableEq, Repr

/-- Form input for task creation; the `new Date(formData.startDate)`
conversions of the source are abstracted by supplying instants directly. -/
structure TaskFormData where
  title : String
  description : String
  startDate : Int
  dueDate : Int
  category : TaskCategory
  priority : TaskPriority
deriving DecidableEq, Repr

/-- App.tsx handleCreateTask: appends a fresh task with zero progress,
pending status and not-completed flag.  The generated id and the clock
reading are passed as parameters. -/
def handleCreateTask (formData : TaskFormData) (newId : String) (now : Int)
    (tasks : List Task) : List Task :=
  tasks ++ [{
    id := newId
    title := formData.title
    description := formData.description
    startDate := formData.startDate
    dueDate := formData.dueDate
    completionPercentage := 0
    status := .pending
    category := formData.category
    priority := formData.priority
    isCompleted := false
    createdAt := now
    updatedAt := now }]

/-- App.tsx handleDeleteTask (the confirmed branch; the window.confirm
gate belongs to the presentation layer). -/
def handleDeleteTask (id : String) (tasks : List Task) : List Task :=
  tasks.filter (fun task => task.id ≠ id)

/-- The per-task update performed by App.tsx handleToggleComplete on the
task whose id matches. -/
def toggledTask (task : Task) (now : Int) : Task :=
  let isCompleted := !task.isCompleted
  { task with
    isCompleted := isCompleted
    completionPercentage := if isCompleted then 100 else task.completionPercentage
    status := if isCompleted then .completed
              else if task.completionPercentage > 0 then .in_progress
              else .pending
    updatedAt := now }

/-- App.tsx handleToggleComplete. -/
def handleToggleComplete (id : String) (now : Int) (tasks : List Task) : List Task :=
  tasks.map (fun task => if task.id = id then toggledTask task now else task)

/-- The per-task update performed by App.tsx handleUpdateProgress on the
task whose id matches. -/
def progressedTask (task : Task) (progress : Int) (now : Int) : Task :=
  let status : TaskStatus :=
    if progress = 100 then .completed
    else if progress > 0 then .in_progress
    else .pending
  { task with
    completionPercentage := progress
    status := status
    isCompleted := progress == 100
    updatedAt := now }

/-- App.tsx handleUpdateProgress. -/
def handleUpdateProgress (id : String) (progress : Int) (now : Int)
    (tasks : List Task) : List Task :=
  tasks.map (fun task => if task.id = id then progressedTask task progress now else task)

structure TaskStats where
  totalTasks : Nat
  completedTasks : Nat
  inProgressTasks : Nat
  pendingTasks : Nat
  overdueTasks : Nat
  completionPercentage : Nat
deriving DecidableEq, Repr

/-- Exact half-up rounding of the ratio num / den (den positive): the
nearest integer with halves rounding toward positive infinity, i.e. the
floor of num / den + 1 / 2.  This is the mathematical rounding rule ECMA
Math.round applies to the exact value of its double argument; it also
serves as the idealized half-up reference the specification text claims. -/
def mathRound (num den : Nat) : Nat :=
  (2 * num + den) / (2 * den)

/-- Round num / den (den positive) to the nearest integer with ties to
even, the IEEE-754 rounding of a correctly rounded operation. -/
def rne (num den : Nat) : Nat :=
  let q := num / den
  let r := num % den
  if den < 2 * r then q + 1
  else if 2 * r < den then q
  else if q % 2 = 0 then q else q + 1

/-- Floor base-2 logarithm, by structural recursion on a fuel bound so
that it computes inside the kernel. -/
def log2Aux : Nat → Nat → Nat
  | 0, _ => 0
  | fuel + 1, n => if n ≤ 1 then 0 else log2Aux fuel (n / 2) + 1

/-- Floor base-2 logarithm of a positive number (0 for 0). -/
def log2F (n : Nat) : Nat := log2Aux n n

/-- The IEEE-754 binary64 value nearest to num / den, as an exact pair
mantissa, exponent (value = mantissa * 2 ^ exponent): the binade of the
ratio is located with the floor base-2 logarithms of the operands, the
ratio is scaled so that the rounded mantissa carries 53 significant bits,
and the scaled ratio is rounded to nearest, ties to even.  Faithful for
inputs (and results) within the normal finite double range, which covers
every use below. -/
def flRat (num den : Nat) : Nat × Int :=
  if num = 0 then (0, 0) else
  let a := log2F num
  let b := log2F den
  let f : Int := if den * 2 ^ a ≤ num * 2 ^ b then (a : Int) - b else (a : Int) - b - 1
  if 0 ≤ 52 - f then (rne (num * 2 ^ (52 - f).toNat) den, f - 52)
  else (rne num (den * 2 ^ (f - 52).toNat), f - 52)

/-- Math.round((C / T) * 100) computed as JavaScript computes it: the
division and the multiplication are each correctly rounded binary64
operations (C and T are array counts below 2 ^ 32, hence exact doubles),
and ECMA Math.round then takes the integer nearest to the exact value of
the product, halves toward positive infinity. -/
def jsRatioPercent (C T : Nat) : Nat :=
  let a := flRat C T
  let b := flRat (100 * a.1) 1
  let eb := a.2 + b.2
  if 0 ≤ eb then b.1 * 2 ^ eb.toNat
  else mathRound b.1 (2 ^ (-eb).toNat)

/-- taskUtils.calculateTaskStats; the `new Date()` clock reading is the
parameter now. -/
def calculateTaskStats (tasks : List Task) (now : Int) : TaskStats :=
  let totalTasks := tasks.length
  let completedTasks := (tasks.filter (fun t => t.isCompleted)).length
  let inProgressTasks := (tasks.filter (fun t => t.status == .in_progress)).length
  let pendingTasks := (tasks.filter (fun t => t.status == .pending)).length
  let overdueTasks := (tasks.filter (fun t => !t.isCompleted && decide (t.dueDate < now))).length
  let completionPercentage :=
    if totalTasks > 0 then jsRatioPercent completedTasks totalTasks else 0
  { totalTasks := totalTasks
    completedTasks := completedTasks
    inProgressTasks := inProgressTasks
    pendingTasks := pendingTasks
    overdueTasks := overdueTasks
    completionPercentage := completionPercentage }

inductive SortOption where
  | alphabetical
  | start_date
  | due_date
  | completion
  | priority
deriving DecidableEq, Repr

inductive SortOrder where
  | asc
  | desc
deriving DecidableEq, Repr

/-- taskUtils priorityOrder: the fixed rank map high=3, medium=2, low=1. -/
def priorityOrder : TaskPriority → Int
  | .high => 3
  | .medium => 2
  | .low => 1

/-- Model of JavaScript String.prototype.toLowerCase: lower-case every
character. -/
def jsToLower (s : String) : String := String.mk (s.data.map Char.toLower)

/-- Model of JavaScript String.prototype.localeCompare, approximated by
code-point lexicographic comparison (the comparands in the source are
already lowercased); returns a negative, zero or positive number. -/
def localeCompare (a b : String) : Int :=
  if a < b then -1 else if b < a then 1 else 0

/-- The comparator body of taskUtils.sortTasks, before the order flag is
applied: a negative result places a before b. -/
def taskComparison (sortBy : SortOption) (a b : Task) : Int :=
  match sortBy with
  | .alphabetical => localeCompare (jsToLower a.title) (jsToLower b.title)
  | .start_date => a.startDate - b.startDate
  | .due_date => a.dueDate - b.dueDate
  | .completion => a.completionPercentage - b.completionPercentage
  | .priority => priorityOrder b.priority - priorityOrder a.priority

/-- taskUtils.sortTasks: copies the list and sorts it with the comparator,
negated when the order flag is desc.  Array.prototype.sort with a
consistent comparator is a stable comparator sort; it is modelled by the
stable List.mergeSort on the relation comparator at most zero. -/
def sortTasks (tasks : List Task) (sortBy : SortOption) (order : SortOrder) : List Task :=
  tasks.mergeSort (fun a b =>
    (match order with
     | .asc => taskComparison sortBy a b
     | .desc => -(taskComparison sortBy a b)) ≤ 0)

/-- Model of JavaScript String.prototype.includes: substring containment
(the empty string is contained in every string). -/
def jsIncludes (s pattern : String) : Bool :=
  decide (pattern.toList <:+: s.toList)

/-- The search predicate of TaskList filteredTasks: title or description
contains the query, case-insensitively. -/
def matchesSearch (searchQuery : String) (task : Task) : Bool :=
  jsIncludes (jsToLower task.title) (jsToLower searchQuery) ||
    jsIncludes (jsToLower task.description) (jsToLower searchQuery)

/-- The status predicate of TaskList filteredTasks: the sentinel all
(modelled as none) keeps every task. -/
def matchesFilter (filterStatus : Option TaskStatus) (task : Task) : Bool :=
  match filterStatus with
  | none => true
  | some s => task.status == s

/-- TaskList filteredTasks: one pass keeping tasks that match both the
search query and the selected status. -/
def filteredTasks (tasks : List Task) (searchQuery : String)
    (filterStatus : Option TaskStatus) : List Task :=
  tasks.filter (fun task => matchesSearch searchQuery task && matchesFilter filterStatus task)

/-- The search stage on its own, as the specification describes it. -/
def searchStage (searchQuery : String) (tasks : List Task) : List Task :=
  tasks.filter (matchesSearch searchQuery)

/-- The status-filter stage on its own, as the specification describes it. -/
def statusStage (filterStatus : Option TaskStatus) (tasks : List Task) : List Task :=
  tasks.filter (matchesFilter filterStatus)

/-- The collections reachable from the empty collection by the four
mutators of App.tsx, with progress updates restricted to the validated
range 0 to 100. -/
inductive Reachable : List Task → Prop where
  | empty : Reachable []
  | create (fd : TaskFormData) (newId : String) (now : Int) {ts : List Task} :
      Reachable ts → Reachable (handleCreateTask fd newId now ts)
  | toggle (id : String) (now : Int) {ts : List Task} :
      Reachable ts → Reachable (handleToggleComplete id now ts)
  | update (id : String) (p now : Int) {ts : List Task} :
      0 ≤ p → p ≤ 100 → Reachable ts → Reachable (handleUpdateProgress id p now ts)
  | delete (id : String) {ts : List Task} :
      Reachable ts → Reachable (handleDeleteTask id ts)

/-- Year-of-era, month and day of a day-of-era index (0 based, inside one
400-year Gregorian era whose years start in March): the century, the
4-year quad and the year within the quad are extracted with scaled
divisions, then the month and day come from the 153-day 5-month cycle. -/
def civilOfDoe (doe : Nat) : Nat × Nat × Nat :=
  let c := (4 * doe + 3) / 146097
  let r1 := doe - 36524 * c
  let q := r1 / 1461
  let r2 := r1 - 1461 * q
  let ry := (4 * r2 + 3) / 1461
  let doy := r2 - 365 * ry
  let yoe := 100 * c + 4 * q + ry
  let mp := (5 * doy + 2) / 153
  let d := doy - (153 * mp + 2) / 5 + 1
  let m := if mp < 10 then mp + 3 else mp - 9
  (yoe, m, d)

/-- Proleptic-Gregorian date of a day count (days since 1970-01-01), the
calendar computation behind Date.prototype.toISOString.  Returns the
year, the month 1..12 and the day of month 1..31.  Integer division and
remainder here are euclidean, which agrees with floor division for the
positive divisors used. -/
def civilFromDays (z : Int) : Int × Nat × Nat :=
  let days := z + 719468
  let era := days / 146097
  let ymd := civilOfDoe (days % 146097).toNat
  ((ymd.1 : Int) + era * 400 + (if ymd.2.1 ≤ 2 then 1 else 0), ymd.2.1, ymd.2.2)

/-- Day count (days since 1970-01-01) of a proleptic-Gregorian date, the
calendar computation behind parsing a date-time string (ECMA MakeDay). -/
def daysFromCivil (y0 : Int) (m d : Nat) : Int :=
  let y := if m ≤ 2 then y0 - 1 else y0
  let era := y / 400
  let yoe := (y - era * 400).toNat
  let mp := if m > 2 then m - 3 else m + 9
  let doy := (153 * mp + 2) / 5 + d - 1
  let doe := 365 * yoe + yoe / 4 - yoe / 100 + doy
  era * 146097 + (doe : Int) - 719468

/-- The decimal digit character of n modulo 10. -/
def dig (n : Nat) : Char := Nat.digitChar (n % 10)

/-- Two-digit zero-padded decimal (ECMA ToZeroPaddedDecimalString). -/
def pad2 (n : Nat) : List Char := [dig (n / 10), dig n]

/-- Three-digit zero-padded decimal. -/
def pad3 (n : Nat) : List Char := [dig (n / 100), dig (n / 10), dig n]

/-- Four-digit zero-padded decimal. -/
def pad4 (n : Nat) : List Char := [dig (n / 1000), dig (n / 100), dig (n / 10), dig n]

/-- Six-digit zero-padded decimal, for the expanded-year ISO format. -/
def pad6 (n : Nat) : List Char :=
  [dig (n / 100000), dig (n / 10000), dig (n / 1000), dig (n / 100), dig (n / 10), dig n]

/-- Model of Date.prototype.toISOString on an instant t in epoch
milliseconds: YYYY-MM-DDTHH:mm:ss.sssZ, with the year widened to the
signed six-digit expanded form outside 0000..9999. -/
def toISOChars (t : Int) : List Char :=
  let ymd := civilFromDays (t / 86400000)
  let ms := (t % 86400000).toNat
  let yearPart : List Char :=
    if 0 ≤ ymd.1 ∧ ymd.1 ≤ 9999 then pad4 ymd.1.toNat
    else (if ymd.1 < 0 then '-' else '+') :: pad6 ymd.1.natAbs
  yearPart ++ '-' :: pad2 ymd.2.1 ++ '-' :: pad2 ymd.2.2 ++
    'T' :: pad2 (ms / 3600000) ++ ':' :: pad2 (ms / 60000 % 60) ++
    ':' :: pad2 (ms / 1000 % 60) ++ '.' :: pad3 (ms % 1000) ++ ['Z']

/-- String form of the toISOString model. -/
def toISOString (t : Int) : String := String.mk (toISOChars t)

/-- Decimal value of a digit character. -/
def digitVal (c : Char) : Option Nat :=
  if '0' ≤ c ∧ c ≤ '9' then some (c.toNat - 48) else none

/-- Value of two decimal digit characters. -/
def digits2 (a b : Char) : Option Nat := do
  let x ← digitVal a
  let y ← digitVal b
  some (10 * x + y)

/-- Value of three decimal digit characters. -/
def digits3 (a b c : Char) : Option Nat := do
  let x ← digitVal a
  let y ← digits2 b c
  some (100 * x + y)

/-- Value of four decimal digit characters. -/
def digits4 (a b c d : Char) : Option Nat := do
  let x ← digits2 a b
  let y ← digits2 c d
  some (100 * x + y)

/-- Value of six decimal digit characters. -/
def digits6 (a b c d e f : Char) : Option Nat := do
  let x ← digits3 a b c
  let y ← digits3 d e f
  some (1000 * x + y)

/-- Parse the month-to-milliseconds tail MM-DDTHH:mm:ss.sssZ of an ISO
date-time string, given the already parsed year; returns the instant in
epoch milliseconds (ECMA parse of a Date Time String followed by
MakeDay / MakeTime / MakeDate). -/
def parseYMDTail (y : Int) : List Char → Option Int
  | [m1, m2, '-', d1, d2, 'T', h1, h2, ':', n1, n2, ':', s1, s2, '.', f1, f2, f3, 'Z'] => do
    let mo ← digits2 m1 m2
    let d ← digits2 d1 d2
    let h ← digits2 h1 h2
    let mi ← digits2 n1 n2
    let s ← digits2 s1 s2
    let f ← digits3 f1 f2 f3
    some (daysFromCivil y mo d * 86400000 +
      ((h * 3600000 + mi * 60000 + s * 1000 + f : Nat) : Int))
  | _ => none

/-- Parse the four-digit-year ISO form. -/
def parseBasicISO : List Char → Option Int
  | a :: b :: c :: d :: '-' :: rest => do
    let y ← digits4 a b c d
    parseYMDTail (y : Int) rest
  | _ => none

/-- Parse the six-digit expanded-year tail after the sign. -/
def parseExpandedISO (sign : Int) : List Char → Option Int
  | a :: b :: c :: d :: e :: f :: '-' :: rest => do
    let y ← digits6 a b c d e f
    parseYMDTail (sign * (y : Int)) rest
  | _ => none

/-- Model of new Date(string) applied to an ISO date-time string: returns
the instant in epoch milliseconds, or none for an unparsable string
(JavaScript would yield an Invalid Date). -/
def parseISOChars : List Char → Option Int
  | [] => none
  | c :: rest =>
    if c = '+' then parseExpandedISO 1 rest
    else if c = '-' then parseExpandedISO (-1) rest
    else parseBasicISO (c :: rest)

/-- String form of the ISO date parser. -/
def parseISODate (s : String) : Option Int := parseISOChars s.data

/-- A task as it appears in the persisted JSON array: every calendar
instant encoded as an ISO-8601 string (JSON.stringify invokes
Date.prototype.toJSON, which is toISOString). -/
structure StoredTask where
  id : String
  title : String
  description : String
  startDate : String
  dueDate : String
  completionPercentage : Int
  status : TaskStatus
  category : TaskCategory
  priority : TaskPriority
  isCompleted : Bool
  createdAt : String
  updatedAt : String
deriving DecidableEq, Repr

/-- The JSON image of one task under JSON.stringify (App.tsx save effect). -/
def saveTask (t : Task) : StoredTask :=
  { id := t.id
    title := t.title
    description := t.description
    startDate := toISOString t.startDate
    dueDate := toISOString t.dueDate
    completionPercentage := t.completionPercentage
    status := t.status
    category := t.category
    priority := t.priority
    isCompleted := t.isCompleted
    createdAt := toISOString t.createdAt
    updatedAt := toISOString t.updatedAt }

/-- App.tsx save effect: the structural content written to the single
localStorage slot named tasks. -/
def saveTasks (tasks : List Task) : List StoredTask := tasks.map saveTask

/-- The per-task reconstruction of the App.tsx load effect: spread the
parsed object and rebuild the four date fields with new Date(string).
A string new Date cannot parse yields an Invalid Date, which has no
integer representative; it is modelled as instant 0 and is never produced
from a saved task. -/
def loadStoredTask (s : StoredTask) : Task :=
  { id := s.id
    title := s.title
    description := s.description
    startDate := (parseISODate s.startDate).getD 0
    dueDate := (parseISODate s.dueDate).getD 0
    completionPercentage := s.completionPercentage
    status := s.status
    category := s.category
    priority := s.priority
    isCompleted := s.isCompleted
    createdAt := (parseISODate s.createdAt).getD 0
    updatedAt := (parseISODate s.updatedAt).getD 0 }

/-- App.tsx load effect, from the raw slot content: an absent slot leaves
the initial empty state; a slot whose JSON.parse fails (modelled by the
parse parameter returning none) logs a diagnostic and leaves the initial
empty state; otherwise every stored task is reconstructed.  The returned
flag records whether the console.error diagnostic was emitted. -/
def loadTasks (parse : String → Option (List StoredTask)) (slot : Option String) :
    List Task × Bool :=
  match slot with
  | none => ([], false)
  | some raw =>
    match parse raw with
    | none => ([], true)
    | some stored => (stored.map loadStoredTask, false)

/-- The spec §8 scenario collection: Buy milk (pending, low, 0),
Write report (in progress, high, 40), Pay rent (completed, medium, 100). -/
def scenarioTasks : List Task :=
  [{ id := "1", title := "Buy milk", description := "", startDate := 0, dueDate := 86400000
     completionPercentage := 0, status := .pending, category := .personal
     priority := .low, isCompleted := false, createdAt := 0, updatedAt := 0 },
   { id := "2", title := "Write report", description := "", startDate := 0, dueDate := 86400000
     completionPercentage := 40, status := .in_progress, category := .work
     priority := .high, isCompleted := false, createdAt := 0, updatedAt := 0 },
   { id := "3", title := "Pay rent", description := "", startDate := 0, dueDate := 86400000
     completionPercentage := 100, status := .completed, category := .other
     priority := .medium, isCompleted := true, createdAt := 0, updatedAt := 0 }]

/-- A minimal creation form used to build concrete reachable collections. -/
def probeForm : TaskFormData :=
  { title := "probe", description := "", startDate := 0, dueDate := 0
    category := .work, priority := .low }

/-- The collection obtained by creating one task and toggling it complete
twice: its task ends with completionPercentage 100 yet isCompleted false. -/
def invariantBreaker : List Task :=
  handleToggleComplete "a" 2 (handleToggleComplete "a" 1 (handleCreateTask probeForm "a" 0 []))

/-- The single task of invariantBreaker, written out. -/
def breakerTask : Task :=
  { id := "a", title := "probe", description := "", startDate := 0, dueDate := 0
    completionPercentage := 100, status := .in_progress, category := .work
    priority := .low, isCompleted := false, createdAt := 0, updatedAt := 2 }

/-- The single-task consistency invariant stated by the specification:
completionPercentage 100, the isCompleted flag and the completed status
coincide. -/
def specInvariant (t : Task) : Prop :=
  (t.completionPercentage = 100 ↔ t.isCompleted = true) ∧
    (t.isCompleted = true ↔ t.status = .completed)

/-- The amended single-task invariant that the code actually maintains:
isCompleted coincides with the completed status, and a completed task has
completionPercentage 100 (the converse can fail after toggling a
completed task back off). -/
def amendedInvariant (t : Task) : Prop :=
  (t.isCompleted = true ↔ t.status = .completed) ∧
    (t.isCompleted = true → t.completionPercentage = 100)

/-- A concrete task with representable dates, used to witness the
persistence round trip. -/
def sampleTask : Task :=
  { id := "42", title := "Write report", description := "quarterly numbers"
    startDate := 1700000000000, dueDate := 1700604800000
    completionPercentage := 40, status := .in_progress, category := .work
    priority := .high, isCompleted := false
    createdAt := 1699999999999, updatedAt := 1700000000001 }

/-- A task marked completed, for building statistics inputs. -/
def completedProbe : Task :=
  { id := "c", title := "done", description := "", startDate := 0, dueDate := 0
    completionPercentage := 100, status := .completed, category := .work
    priority := .low, isCompleted := true, createdAt := 0, updatedAt := 0 }

/-- A pending task, for building statistics inputs. -/
def pendingProbe : Task :=
  { id := "p", title := "todo", description := "", startDate := 0, dueDate := 0
    completionPercentage := 0, status := .pending, category := .work
    priority := .low, isCompleted := false, createdAt := 0, updatedAt := 0 }

/-- Forty tasks of which exactly twenty-three are completed: the smallest
total at which the floating-point percentage departs from exact half-up
rounding (the double (23/40)*100 is 57.49999999999999289, just below the
exact 57.5). -/
def tieTasks : List Task :=
  List.replicate 23 completedProbe ++ List.replicate 17 pendingProbe

/-- The range of instants representable by a JavaScript Date: at most
8.64e15 milliseconds away from the epoch. -/
abbrev validInstant (t : Int) : Prop :=
  -8640000000000000 ≤ t ∧ t ≤ 8640000000000000

/-- A task all of whose calendar instants are representable. -/
abbrev validDates (t : Task) : Prop :=
  validInstant t.startDate ∧ validInstant t.dueDate ∧
    validInstant t.createdAt ∧ validInstant t.updatedAt

/-! ## Theorems -/

/-- C2: updateProgress with progress in the validated range sets the
matching task's completionPercentage to progress, recomputes its status as
completed when progress is 100, in progress when strictly between 0 and
100 and pending when 0, sets isCompleted exactly when progress is 100,
stamps updatedAt with the clock reading, and leaves every other position
of the collection unchanged. -/
theorem updateProgress_spec (tasks : List Task) (id : String) (p now : Int)
    (hp0 : 0 ≤ p) (hp1 : p ≤ 100) (i : Fin tasks.length) :
    (handleUpdateProgress id p now tasks)[(i : Nat)]? =
      some (if (tasks.get i).id = id then
        { tasks.get i with
          completionPercentage := p
          status := if p = 100 then .completed
                    else if 0 < p ∧ p < 100 then .in_progress
                    else .pending
          isCompleted := decide (p = 100)
          updatedAt := now }
      else tasks.get i) := by
  have hi : (i : Nat) < tasks.length := i.2
  rw [handleUpdateProgress, List.getElem?_map, List.getElem?_eq_getElem hi]
  simp only [Option.map_some, Option.some.injEq, List.get_eq_getElem]
  by_cases h : tasks[(i : Nat)].id = id
  · simp only [h, if_pos rfl, progressedTask]
    by_cases h100 : p = 100
    · simp [h, h100]
    · have hb : (p == 100) = false := beq_eq_false_iff_ne.mpr h100
      by_cases hpos : p > 0
      · simp [h, h100, hpos, hb, show 0 < p ∧ p < 100 by omega]
      · simp [h, h100, hpos, hb, show ¬ (0 < p ∧ p < 100) by omega]
  · simp [h]

/-- C2 witness: the theorem applied at a concrete collection, id, progress
value 50 and clock reading 7. -/
theorem updateProgress_spec_witness :
    (handleUpdateProgress "1" 50 7 scenarioTasks)[0]? =
      some { scenarioTasks.get ⟨0, by decide⟩ with
        completionPercentage := 50
        status := .in_progress
        isCompleted := false
        updatedAt := 7 } := by
  have h := updateProgress_spec scenarioTasks "1" 50 7 (by decide) (by decide) ⟨0, by decide⟩
  simpa using h

/-- C3: toggleComplete flips the matching task's isCompleted; when the new
value is true it forces completionPercentage to 100 and status to
completed regardless of the prior progress; when the new value is false
it keeps the prior completionPercentage and recomputes status from it
(in progress if positive, pending otherwise); updatedAt is stamped with
the clock reading; every other position is unchanged. -/
theorem toggleComplete_spec (tasks : List Task) (id : String) (now : Int)
    (i : Fin tasks.length) :
    (handleToggleComplete id now tasks)[(i : Nat)]? =
      some (if (tasks.get i).id = id then
        { tasks.get i with
          isCompleted := !(tasks.get i).isCompleted
          completionPercentage :=
            if (tasks.get i).isCompleted then (tasks.get i).completionPercentage else 100
          status :=
            if (tasks.get i).isCompleted then
              (if (tasks.get i).completionPercentage > 0 then .in_progress else .pending)
            else .completed
          updatedAt := now }
      else tasks.get i) := by
  have hi : (i : Nat) < tasks.length := i.2
  rw [handleToggleComplete, List.getElem?_map, List.getElem?_eq_getElem hi]
  simp only [Option.map_some, Option.some.injEq, List.get_eq_getElem]
  by_cases h : tasks[(i : Nat)].id = id
  · simp only [h, if_pos rfl, toggledTask]
    cases hc : tasks[(i : Nat)].isCompleted <;> simp [hc, h]
  · simp [h]

/-- C3 witness: the theorem applied to the scenario collection at index 2,
whose task Pay rent is completed with full progress, toggled back off at
clock reading 9. -/
theorem toggleComplete_spec_witness :
    (handleToggleComplete "3" 9 scenarioTasks)[2]? =
      some { scenarioTasks.get ⟨2, by decide⟩ with
        isCompleted := false
        completionPercentage := 100
        status := .in_progress
        updatedAt := 9 } := by
  have h := toggleComplete_spec scenarioTasks "3" 9 ⟨2, by decide⟩
  simpa [scenarioTasks] using h

/-- C8: delete, toggleComplete and updateProgress on an id absent from the
collection return the collection unchanged, and deleting the same id twice
equals deleting it once. -/
theorem missing_id_noop (tasks : List Task) (id : String) (p now now2 : Int)
    (h : id ∉ tasks.map Task.id) :
    handleDeleteTask id tasks = tasks ∧
    handleToggleComplete id now tasks = tasks ∧
    handleUpdateProgress id p now2 tasks = tasks ∧
    handleDeleteTask id (handleDeleteTask id tasks) = handleDeleteTask id tasks := by
  have hid : ∀ t ∈ tasks, t.id ≠ id := by
    intro t ht heq
    exact h (List.mem_map.mpr ⟨t, ht, heq⟩)
  refine ⟨?_, ?_, ?_, ?_⟩
  · rw [handleDeleteTask, List.filter_eq_self]
    intro t ht
    simpa using hid t ht
  · rw [handleToggleComplete]
    conv_rhs => rw [← List.map_id tasks]
    exact List.map_congr_left (fun t ht => by simp [hid t ht])
  · rw [handleUpdateProgress]
    conv_rhs => rw [← List.map_id tasks]
    exact List.map_congr_left (fun t ht => by simp [hid t ht])
  · rw [handleDeleteTask, handleDeleteTask, List.filter_eq_self]
    intro t ht
    exact (List.mem_filter.mp ht).2

/-- C8 witness: the theorem applied to the scenario collection and the
absent id 9. -/
theorem missing_id_noop_witness :
    handleDeleteTask "9" scenarioTasks = scenarioTasks ∧
    handleToggleComplete "9" 5 scenarioTasks = scenarioTasks ∧
    handleUpdateProgress "9" 30 6 scenarioTasks = scenarioTasks ∧
    handleDeleteTask "9" (handleDeleteTask "9" scenarioTasks) =
      handleDeleteTask "9" scenarioTasks :=
  missing_id_noop scenarioTasks "9" 30 5 6 (by decide)

/-- C7: the one-pass filter of TaskList equals the search stage followed by
the status-filter stage; the search stage keeps exactly the tasks whose
title or description contains the query as a case-insensitive substring,
the empty query keeps every task, and the status stage keeps exactly the
tasks with the selected status, or every task under the sentinel all. -/
theorem filter_pipeline_spec (tasks : List Task) (q : String) (sel : Option TaskStatus) :
    filteredTasks tasks q sel = statusStage sel (searchStage q tasks) ∧
    (∀ t : Task, t ∈ searchStage q tasks ↔ t ∈ tasks ∧
      ((jsToLower q).toList <:+: (jsToLower t.title).toList ∨
       (jsToLower q).toList <:+: (jsToLower t.description).toList)) ∧
    searchStage "" tasks = tasks ∧
    (∀ t : Task, t ∈ statusStage sel tasks ↔ t ∈ tasks ∧ (sel = none ∨ sel = some t.status)) := by
  refine ⟨?_, ?_, ?_, ?_⟩
  · rw [filteredTasks, statusStage, searchStage, List.filter_filter]
    exact List.filter_congr (fun t _ => by rw [Bool.and_comm])
  · intro t
    rw [searchStage, List.mem_filter]
    simp [matchesSearch, jsIncludes]
  · rw [searchStage, List.filter_eq_self]
    intro t _
    simp [matchesSearch, jsIncludes, jsToLower]
  · intro t
    rw [statusStage, List.mem_filter]
    cases sel with
    | none => simp [matchesFilter]
    | some s =>
      simp only [matchesFilter, beq_iff_eq, decide_eq_true_eq, reduceCtorEq,
        Option.some.injEq, false_or]
      constructor
      · rintro ⟨ht, rfl⟩
        exact ⟨ht, rfl⟩
      · rintro ⟨ht, rfl⟩
        exact ⟨ht, rfl⟩

/-- The fuel-based floor logarithm brackets its positive argument between
consecutive powers of two. -/
theorem log2Aux_spec : ∀ fuel n, 0 < n → n ≤ fuel →
    2 ^ log2Aux fuel n ≤ n ∧ n < 2 ^ (log2Aux fuel n + 1)
  | 0, n, h0, h1 => by omega
  | fuel + 1, n, h0, h1 => by
    rw [log2Aux]
    by_cases hn : n ≤ 1
    · rw [if_pos hn]
      norm_num
      omega
    · rw [if_neg hn]
      obtain ⟨hr1, hr2⟩ := log2Aux_spec fuel (n / 2) (by omega) (by omega)
      constructor
      · rw [pow_succ]
        omega
      · rw [pow_succ]
        omega

/-- Bracketing for log2F. -/
theorem log2F_spec (n : Nat) (h : 0 < n) :
    2 ^ log2F n ≤ n ∧ n < 2 ^ (log2F n + 1) :=
  log2Aux_spec n n h le_rfl

/-- Case analysis for rne: it returns the floor or the ceiling of the
ratio, and can leave the floor only from the half point upward, or reach
the ceiling only from the half point downward. -/
theorem rne_cases (num den : Nat) :
    (rne num den = num / den ∧ 2 * (num % den) ≤ den) ∨
    (rne num den = num / den + 1 ∧ den ≤ 2 * (num % den)) := by
  rw [rne]
  by_cases h1 : den < 2 * (num % den)
  · rw [if_pos h1]
    exact Or.inr ⟨rfl, by omega⟩
  · rw [if_neg h1]
    by_cases h2 : 2 * (num % den) < den
    · rw [if_pos h2]
      exact Or.inl ⟨rfl, by omega⟩
    · rw [if_neg h2]
      by_cases h3 : num / den % 2 = 0
      · rw [if_pos h3]
        exact Or.inl ⟨rfl, by omega⟩
      · rw [if_neg h3]
        exact Or.inr ⟨rfl, by omega⟩

/-- Round-to-nearest error bound: rne differs from the exact ratio by at
most one half. -/
theorem rne_spec (num den : Nat) (hden : 0 < den) :
    2 * num ≤ 2 * rne num den * den + den ∧
    2 * rne num den * den ≤ 2 * num + den := by
  have key : ∀ q r : Nat, r < den → den * q + r = num →
      (2 * r ≤ den → 2 * num ≤ 2 * q * den + den ∧ 2 * q * den ≤ 2 * num + den) ∧
      (den ≤ 2 * r → 2 * num ≤ 2 * (q + 1) * den + den ∧
        2 * (q + 1) * den ≤ 2 * num + den) := by
    intro q r h1 h2
    constructor
    · intro h3
      constructor <;> nlinarith
    · intro h3
      constructor <;> nlinarith
  have hdm : den * (num / den) + num % den = num := Nat.div_add_mod num den
  have hlt : num % den < den := Nat.mod_lt _ hden
  rcases rne_cases num den with ⟨he, hb⟩ | ⟨he, hb⟩ <;> rw [he]
  · exact (key _ _ hlt hdm).1 hb
  · exact (key _ _ hlt hdm).2 hb

/-- For a positive ratio at most one, flRat computes a 53-bit mantissa m
and a nonpositive exponent -s with the scaled ratio bracketed in the
mantissa binade and the mantissa within half an ulp of the scaled ratio. -/
theorem flRat_div_spec (C T : Nat) (hC : 0 < C) (hCT : C ≤ T) :
    ∃ s m : Nat, flRat C T = (m, -(s : Int)) ∧ 52 ≤ s ∧
      T * 2 ^ 52 ≤ C * 2 ^ s ∧ C * 2 ^ s < T * 2 ^ 53 ∧
      2 * (C * 2 ^ s) ≤ 2 * m * T + T ∧ 2 * m * T ≤ 2 * (C * 2 ^ s) + T := by
  have hT : 0 < T := lt_of_lt_of_le hC hCT
  obtain ⟨ha1, ha2⟩ := log2F_spec C hC
  obtain ⟨hb1, hb2⟩ := log2F_spec T hT
  unfold flRat
  rw [if_neg hC.ne']
  dsimp only
  set a := log2F C with had
  set b := log2F T with hbd
  have hab : a ≤ b := by
    by_contra hgt
    push_neg at hgt
    have h1 : 2 ^ a ≤ T := le_trans ha1 hCT
    have h2 : (2:Nat) ^ (b + 1) ≤ 2 ^ a := Nat.pow_le_pow_right (by norm_num) (by omega)
    omega
  by_cases hcond : T * 2 ^ a ≤ C * 2 ^ b
  · rw [if_pos hcond]
    have hf0 : (0:Int) ≤ 52 - ((a:Int) - b) := by omega
    rw [if_pos hf0]
    have htn : ((52:Int) - ((a:Int) - b)).toNat = 52 + b - a := by omega
    rw [htn]
    refine ⟨52 + b - a, rne (C * 2 ^ (52 + b - a)) T, ?_, by omega, ?_, ?_,
      (rne_spec (C * 2 ^ (52 + b - a)) T hT).1, (rne_spec (C * 2 ^ (52 + b - a)) T hT).2⟩
    · congr 1
      omega
    · have key : T * 2 ^ a * 2 ^ 52 ≤ C * 2 ^ b * 2 ^ 52 := mul_le_mul_right' hcond _
      have e1 : C * 2 ^ b * 2 ^ 52 = C * 2 ^ (52 + b - a) * 2 ^ a := by
        rw [mul_assoc, mul_assoc, ← pow_add, ← pow_add]
        congr 2
        omega
      have e2 : T * 2 ^ a * 2 ^ 52 = T * 2 ^ 52 * 2 ^ a := by ring
      rw [e1, e2] at key
      exact Nat.le_of_mul_le_mul_right key (pow_pos (by norm_num) a)
    · have key : C * 2 ^ (52 + b - a) < 2 ^ (a + 1) * 2 ^ (52 + b - a) :=
        mul_lt_mul_of_pos_right ha2 (pow_pos (by norm_num) _)
      calc C * 2 ^ (52 + b - a) < 2 ^ (a + 1) * 2 ^ (52 + b - a) := key
        _ = 2 ^ b * 2 ^ 53 := by rw [← pow_add, ← pow_add]; congr 1; omega
        _ ≤ T * 2 ^ 53 := mul_le_mul_right' hb1 _
  · rw [if_neg hcond]
    push_neg at hcond
    have hf0 : (0:Int) ≤ 52 - ((a:Int) - b - 1) := by omega
    rw [if_pos hf0]
    have htn : ((52:Int) - ((a:Int) - b - 1)).toNat = 53 + b - a := by omega
    rw [htn]
    refine ⟨53 + b - a, rne (C * 2 ^ (53 + b - a)) T, ?_, by omega, ?_, ?_,
      (rne_spec (C * 2 ^ (53 + b - a)) T hT).1, (rne_spec (C * 2 ^ (53 + b - a)) T hT).2⟩
    · congr 1
      omega
    · have k1 : T * 2 ^ 52 < 2 ^ (b + 1) * 2 ^ 52 :=
        mul_lt_mul_of_pos_right hb2 (pow_pos (by norm_num) _)
      have k2 : (2:Nat) ^ (b + 1) * 2 ^ 52 = 2 ^ a * 2 ^ (53 + b - a) := by
        rw [← pow_add, ← pow_add]
        congr 1
        omega
      have k3 : (2:Nat) ^ a * 2 ^ (53 + b - a) ≤ C * 2 ^ (53 + b - a) :=
        mul_le_mul_right' ha1 _
      omega
    · have key : C * 2 ^ b * 2 ^ 53 < T * 2 ^ a * 2 ^ 53 :=
        mul_lt_mul_of_pos_right hcond (pow_pos (by norm_num) _)
      have e1 : C * 2 ^ b * 2 ^ 53 = C * 2 ^ (53 + b - a) * 2 ^ a := by
        rw [mul_assoc, mul_assoc, ← pow_add, ← pow_add]
        congr 2
        omega
      have e2 : T * 2 ^ a * 2 ^ 53 = T * 2 ^ 53 * 2 ^ a := by ring
      rw [e1, e2] at key
      exact lt_of_mul_lt_mul_right key (Nat.zero_le _)

/-- For a 53-bit mantissa, multiplying by 100 and rounding back to 53
bits shifts the exponent by six or seven and keeps the value within half
an ulp. -/
theorem flRat_mul100_spec (m : Nat) (h1 : 2 ^ 52 ≤ m) (h2 : m ≤ 2 ^ 53) :
    ∃ k mb : Nat, flRat (100 * m) 1 = (mb, (k : Int)) ∧ 6 ≤ k ∧ k ≤ 7 ∧
      2 * (100 * m) ≤ 2 * mb * 2 ^ k + 2 ^ k ∧
      2 * mb * 2 ^ k ≤ 2 * (100 * m) + 2 ^ k := by
  have hpos : 0 < 100 * m := by positivity
  obtain ⟨ha1, ha2⟩ := log2F_spec (100 * m) hpos
  have hone : log2F 1 = 0 := rfl
  unfold flRat
  rw [if_neg hpos.ne']
  dsimp only
  rw [hone]
  set a := log2F (100 * m) with had
  have hlb : (2:Nat) ^ 58 ≤ 100 * m := by
    calc (2:Nat) ^ 58 = 64 * 2 ^ 52 := by norm_num
    _ ≤ 100 * m := Nat.mul_le_mul (by norm_num) h1
  have hub : 100 * m < 2 ^ 60 := by
    calc 100 * m ≤ 100 * 2 ^ 53 := Nat.mul_le_mul_left _ h2
    _ < 2 ^ 60 := by norm_num
  have ha58 : 58 ≤ a := by
    by_contra hlt
    push_neg at hlt
    have : (2:Nat) ^ (a + 1) ≤ 2 ^ 58 := Nat.pow_le_pow_right (by norm_num) (by omega)
    omega
  have ha59 : a ≤ 59 := by
    by_contra hgt
    push_neg at hgt
    have : (2:Nat) ^ 60 ≤ 2 ^ a := Nat.pow_le_pow_right (by norm_num) (by omega)
    omega
  have hcond : 1 * 2 ^ a ≤ 100 * m * 2 ^ 0 := by
    simpa using ha1
  rw [if_pos hcond]
  simp only [Nat.cast_zero, sub_zero]
  have hf0 : ¬ (0:Int) ≤ 52 - (a:Int) := by omega
  rw [if_neg hf0]
  have htn : ((a:Int) - 52).toNat = a - 52 := by omega
  rw [htn, one_mul]
  exact ⟨a - 52, rne (100 * m) (2 ^ (a - 52)),
    by congr 1; omega, by omega, by omega,
    (rne_spec (100 * m) (2 ^ (a - 52)) (pow_pos (by norm_num) _)).1,
    (rne_spec (100 * m) (2 ^ (a - 52)) (pow_pos (by norm_num) _)).2⟩

/-- Full characterization of the floating-point percentage computation on
a positive ratio at most one: the result is the exact half-up rounding of
a dyadic value mb / 2 ^ (s - k) obtained from C / T by two correctly
rounded binary64 steps, each within half an ulp. -/
theorem jsRatioPercent_spec (C T : Nat) (hC : 0 < C) (hCT : C ≤ T) :
    ∃ s k m mb : Nat, 52 ≤ s ∧ k ≤ 7 ∧
      jsRatioPercent C T = (2 * mb + 2 ^ (s - k)) / (2 * 2 ^ (s - k)) ∧
      T * 2 ^ 52 ≤ C * 2 ^ s ∧ C * 2 ^ s < T * 2 ^ 53 ∧
      2 * (C * 2 ^ s) ≤ 2 * m * T + T ∧ 2 * m * T ≤ 2 * (C * 2 ^ s) + T ∧
      2 * (100 * m) ≤ 2 * mb * 2 ^ k + 2 ^ k ∧
      2 * mb * 2 ^ k ≤ 2 * (100 * m) + 2 ^ k := by
  have hT : 0 < T := lt_of_lt_of_le hC hCT
  obtain ⟨s, m, hfl, hs, hbr1, hbr2, he1, he2⟩ := flRat_div_spec C T hC hCT
  have hm1 : 2 ^ 52 ≤ m := by
    by_contra hlt
    push_neg at hlt
    have hmT : (m + 1) * T ≤ 2 ^ 52 * T := mul_le_mul_right' (by omega) T
    nlinarith [hmT, hbr1, he1, hT]
  have hm2 : m ≤ 2 ^ 53 := by
    by_contra hgt
    push_neg at hgt
    have hmT : (2 ^ 53 + 1) * T ≤ m * T := mul_le_mul_right' (by omega) T
    nlinarith [hmT, hbr2, he2, hT]
  obtain ⟨k, mb, hfl2, hk6, hk7, hf1, hf2⟩ := flRat_mul100_spec m hm1 hm2
  refine ⟨s, k, m, mb, hs, hk7, ?_, hbr1, hbr2, he1, he2, hf1, hf2⟩
  unfold jsRatioPercent
  rw [hfl]
  dsimp only
  rw [hfl2]
  dsimp only
  rw [if_neg (by omega : ¬ (0:Int) ≤ -(s : Int) + (k : Int))]
  have htn : (-(-(s : Int) + (k : Int))).toNat = s - k := by omega
  rw [htn]
  rfl

/-- The percentage of an empty completed count is zero. -/
theorem jsRatioPercent_zero (T : Nat) : jsRatioPercent 0 T = 0 := rfl

/-- The floating-point percentage of a count within the total never
exceeds one hundred, whatever the collection size. -/
theorem jsRatioPercent_le_100 (C T : Nat) (hCT : C ≤ T) (hT : 0 < T) :
    jsRatioPercent C T ≤ 100 := by
  rcases Nat.eq_zero_or_pos C with hC | hC
  · subst hC
    rw [jsRatioPercent_zero]
    omega
  obtain ⟨s, k, m, mb, hs, hk7, hpct, hbr1, hbr2, he1, he2, hf1, hf2⟩ :=
    jsRatioPercent_spec C T hC hCT
  rw [hpct]
  have hm : m ≤ 2 ^ s := by
    by_contra hgt
    push_neg at hgt
    have hp : 2 ^ s * T + T ≤ m * T := by
      have h := mul_le_mul_right' (show 2 ^ s + 1 ≤ m by omega) T
      calc 2 ^ s * T + T = (2 ^ s + 1) * T := by ring
      _ ≤ m * T := h
    have hq : C * 2 ^ s ≤ 2 ^ s * T := by
      calc C * 2 ^ s ≤ T * 2 ^ s := mul_le_mul_right' hCT _
      _ = 2 ^ s * T := by ring
    nlinarith [hp, hq, he2, hT]
  have hpow : (2:Nat) ^ s = 2 ^ (s - k) * 2 ^ k := by
    rw [← pow_add]
    congr 1
    omega
  have h4 : 2 * mb * 2 ^ k ≤ 200 * (2 ^ (s - k) * 2 ^ k) + 2 ^ k := by
    have h := Nat.mul_le_mul_left 200 hm
    rw [hpow] at h
    omega
  have h5 : 2 * mb ≤ 200 * 2 ^ (s - k) + 1 := by
    have e1 : 200 * (2 ^ (s - k) * 2 ^ k) + 2 ^ k = (200 * 2 ^ (s - k) + 1) * 2 ^ k := by
      ring
    have e2 : 2 * mb * 2 ^ k = 2 * mb * 2 ^ k := rfl
    rw [e1] at h4
    exact Nat.le_of_mul_le_mul_right h4 (pow_pos (by norm_num) k)
  have hD2 : 2 ≤ 2 ^ (s - k) := by
    calc (2:Nat) = 2 ^ 1 := rfl
    _ ≤ 2 ^ (s - k) := Nat.pow_le_pow_right (by norm_num) (by omega)
  have hlt : (2 * mb + 2 ^ (s - k)) / (2 * 2 ^ (s - k)) < 101 := by
    rw [Nat.div_lt_iff_lt_mul (by positivity)]
    omega
  have h100 : (101:Nat) = 100 + 1 := rfl
  rw [h100] at hlt
  exact Nat.lt_succ_iff.mp hlt

/-- The floating-point percentage lies within half of the exact
percentage for every collection size a JavaScript array can reach: the
program computes a nearest integer to 100 C / T, ties resolved by the
floating-point computation. -/
theorem jsRatioPercent_near (C T : Nat) (hCT : C ≤ T) (hT : 0 < T)
    (hT32 : T < 4294967296) :
    2 * T * jsRatioPercent C T ≤ 200 * C + T ∧
    200 * C ≤ 2 * T * jsRatioPercent C T + T := by
  rcases Nat.eq_zero_or_pos C with hC | hC
  · subst hC
    rw [jsRatioPercent_zero]
    omega
  obtain ⟨s, k, m, mb, hs, hk7, hpct, hbr1, hbr2, he1, he2, hf1, hf2⟩ :=
    jsRatioPercent_spec C T hC hCT
  rw [hpct]
  set D := (2:Nat) ^ (s - k) with hD
  set P := (2 * mb + D) / (2 * D) with hP
  have hDpos : 0 < D := pow_pos (by norm_num) _
  have hchar := Nat.div_add_mod (2 * mb + D) (2 * D)
  have hmod : (2 * mb + D) % (2 * D) < 2 * D := Nat.mod_lt _ (by omega)
  rw [← hP] at hchar
  have pc1 : 2 * D * P ≤ 2 * mb + D := by omega
  have pc2 : 2 * mb + 1 ≤ 2 * D * P + D := by omega
  have hpow : D * 2 ^ k = 2 ^ s := by
    rw [hD, ← pow_add]
    congr 1
    omega
  have hsT : 228 * T < 2 ^ s := by
    have h52 : (2:Nat) ^ 52 ≤ 2 ^ s := Nat.pow_le_pow_right (by norm_num) hs
    omega
  have hKT : (2:Nat) ^ k ≤ 128 := by
    calc (2:Nat) ^ k ≤ 2 ^ 7 := Nat.pow_le_pow_right (by norm_num) hk7
    _ = 128 := by norm_num
  have u9 : 2 ^ k * T ≤ 128 * T := mul_le_mul_right' hKT T
  have hfa : 2 * (mb * 2 ^ k) ≤ 2 * (100 * m) + 2 ^ k := by
    have e : 2 * mb * 2 ^ k = 2 * (mb * 2 ^ k) := by ring
    rw [e] at hf2
    exact hf2
  have hfb : 2 * (100 * m) ≤ 2 * (mb * 2 ^ k) + 2 ^ k := by
    have e : 2 * mb * 2 ^ k = 2 * (mb * 2 ^ k) := by ring
    rw [e] at hf1
    exact hf1
  have hea : 2 * (m * T) ≤ 2 * (C * 2 ^ s) + T := by
    have e : 2 * m * T = 2 * (m * T) := by ring
    rw [e] at he2
    exact he2
  have heb : 2 * (C * 2 ^ s) ≤ 2 * (m * T) + T := by
    have e : 2 * m * T = 2 * (m * T) := by ring
    rw [e] at he1
    exact he1
  constructor
  · by_contra hcon
    push_neg at hcon
    have u1 : 2 * D * P * 2 ^ k ≤ (2 * mb + D) * 2 ^ k := mul_le_mul_right' pc1 _
    have u2 : 2 * (2 ^ s * P) ≤ 2 * (mb * 2 ^ k) + 2 ^ s := by
      have e1 : 2 * D * P * 2 ^ k = 2 * (D * 2 ^ k) * P := by ring
      have e2 : (2 * mb + D) * 2 ^ k = 2 * (mb * 2 ^ k) + D * 2 ^ k := by ring
      rw [e1, e2, hpow] at u1
      calc 2 * (2 ^ s * P) = 2 * 2 ^ s * P := by ring
      _ ≤ 2 * (mb * 2 ^ k) + 2 ^ s := u1
    have u3 : 2 * (2 ^ s * P) ≤ 200 * m + 2 ^ k + 2 ^ s := by omega
    have u4 : 2 * (2 ^ s * P) * T ≤ (200 * m + 2 ^ k + 2 ^ s) * T :=
      mul_le_mul_right' u3 T
    have u5 : 2 * (2 ^ s * P * T) ≤ 200 * (m * T) + 2 ^ k * T + 2 ^ s * T := by
      have e1 : 2 * (2 ^ s * P) * T = 2 * (2 ^ s * P * T) := by ring
      have e2 : (200 * m + 2 ^ k + 2 ^ s) * T =
          200 * (m * T) + 2 ^ k * T + 2 ^ s * T := by ring
      rw [e1, e2] at u4
      exact u4
    have u7 : (200 * C + T + 1) * 2 ^ s ≤ 2 * T * P * 2 ^ s :=
      mul_le_mul_right' (by omega) _
    have u8 : 200 * (C * 2 ^ s) + 2 ^ s * T + 2 ^ s ≤ 2 * (2 ^ s * P * T) := by
      have e1 : (200 * C + T + 1) * 2 ^ s =
          200 * (C * 2 ^ s) + 2 ^ s * T + 2 ^ s := by ring
      have e2 : 2 * T * P * 2 ^ s = 2 * (2 ^ s * P * T) := by ring
      rw [e1, e2] at u7
      exact u7
    omega
  · by_contra hcon
    push_neg at hcon
    have v1 : (2 * mb + 1) * 2 ^ k ≤ (2 * D * P + D) * 2 ^ k := mul_le_mul_right' pc2 _
    have v2 : 2 * (mb * 2 ^ k) + 2 ^ k ≤ 2 * (2 ^ s * P) + 2 ^ s := by
      have e1 : (2 * mb + 1) * 2 ^ k = 2 * (mb * 2 ^ k) + 2 ^ k := by ring
      have e2 : (2 * D * P + D) * 2 ^ k = 2 * (D * 2 ^ k) * P + D * 2 ^ k := by ring
      rw [e1, e2, hpow] at v1
      calc 2 * (mb * 2 ^ k) + 2 ^ k ≤ 2 * 2 ^ s * P + 2 ^ s := v1
      _ = 2 * (2 ^ s * P) + 2 ^ s := by ring
    have v3 : 200 * m ≤ 2 * (2 ^ s * P) + 2 ^ s + 2 ^ k := by omega
    have v4 : 200 * m * T ≤ (2 * (2 ^ s * P) + 2 ^ s + 2 ^ k) * T :=
      mul_le_mul_right' v3 T
    have v5 : 200 * (m * T) ≤ 2 * (2 ^ s * P * T) + 2 ^ s * T + 2 ^ k * T := by
      have e1 : 200 * m * T = 200 * (m * T) := by ring
      have e2 : (2 * (2 ^ s * P) + 2 ^ s + 2 ^ k) * T =
          2 * (2 ^ s * P * T) + 2 ^ s * T + 2 ^ k * T := by ring
      rw [e1, e2] at v4
      exact v4
    have v7 : (2 * T * P + T + 1) * 2 ^ s ≤ 200 * C * 2 ^ s :=
      mul_le_mul_right' (by omega) _
    have v8 : 2 * (2 ^ s * P * T) + 2 ^ s * T + 2 ^ s ≤ 200 * (C * 2 ^ s) := by
      have e1 : (2 * T * P + T + 1) * 2 ^ s =
          2 * (2 ^ s * P * T) + 2 ^ s * T + 2 ^ s := by ring
      have e2 : 200 * C * 2 ^ s = 200 * (C * 2 ^ s) := by ring
      rw [e1, e2] at v7
      exact v7
    omega

/-- C4 counterexample: at 23 completed tasks of 40, the program computes
percentage 57 — the IEEE double (23/40)*100 equals
57.499999999999992894..., just below the exact half 57.5 — while rounding
the exact ratio to the nearest integer half-up gives 58, refuting the
half-up claim at a concrete reachable input. -/
theorem stats_halfup_counterexample :
    (calculateTaskStats tieTasks 0).totalTasks = 40 ∧
    (calculateTaskStats tieTasks 0).completedTasks = 23 ∧
    (calculateTaskStats tieTasks 0).completionPercentage = 57 ∧
    mathRound ((calculateTaskStats tieTasks 0).completedTasks * 100)
      (calculateTaskStats tieTasks 0).totalTasks = 58 := by decide

/-- C4 (amended): the statistics aggregator returns the collection size,
the count of completed flags, the counts of in-progress and pending
statuses, and the count of incomplete tasks whose due date is strictly
before the evaluation time; the overall percentage is 0 for an empty
collection and otherwise Math.round of the IEEE-double product
(completedTasks / totalTasks) * 100 — an integer within half of the exact
percentage (the two inequalities below), with ties resolved by the
floating-point computation rather than always upward. -/
theorem calculateTaskStats_spec (tasks : List Task) (now : Int)
    (hsize : tasks.length < 4294967296) :
    (calculateTaskStats tasks now).totalTasks = tasks.length ∧
    (calculateTaskStats tasks now).completedTasks =
      tasks.countP (fun t => t.isCompleted) ∧
    (calculateTaskStats tasks now).inProgressTasks =
      tasks.countP (fun t => t.status == .in_progress) ∧
    (calculateTaskStats tasks now).pendingTasks =
      tasks.countP (fun t => t.status == .pending) ∧
    (calculateTaskStats tasks now).overdueTasks =
      tasks.countP (fun t => !t.isCompleted && decide (t.dueDate < now)) ∧
    (tasks.length = 0 → (calculateTaskStats tasks now).completionPercentage = 0) ∧
    (0 < tasks.length →
      2 * tasks.length * (calculateTaskStats tasks now).completionPercentage ≤
        200 * (calculateTaskStats tasks now).completedTasks + tasks.length ∧
      200 * (calculateTaskStats tasks now).completedTasks ≤
        2 * tasks.length * (calculateTaskStats tasks now).completionPercentage +
          tasks.length) := by
  refine ⟨rfl, (List.countP_eq_length_filter _ _).symm, (List.countP_eq_length_filter _ _).symm,
    (List.countP_eq_length_filter _ _).symm, (List.countP_eq_length_filter _ _).symm, ?_, ?_⟩
  · intro h
    simp [calculateTaskStats, h]
  · intro h
    have hCT : (tasks.filter (fun t => t.isCompleted)).length ≤ tasks.length :=
      List.length_filter_le _ _
    have hpct : (calculateTaskStats tasks now).completionPercentage =
        jsRatioPercent (tasks.filter (fun t => t.isCompleted)).length tasks.length := by
      simp [calculateTaskStats, if_pos h]
    have hCe : (calculateTaskStats tasks now).completedTasks =
        (tasks.filter (fun t => t.isCompleted)).length := by
      simp [calculateTaskStats]
    rw [hpct, hCe]
    exact jsRatioPercent_near _ _ hCT h hsize

/-- C4 witness: the theorem applied to the scenario collection (three
tasks, one completed) at evaluation time 0; in particular the computed
statistics there are total 3, completed 1, in progress 1, pending 1,
overdue 0 and percentage 33. -/
theorem calculateTaskStats_spec_witness :
    (0 < scenarioTasks.length →
      2 * scenarioTasks.length * (calculateTaskStats scenarioTasks 0).completionPercentage ≤
        200 * (calculateTaskStats scenarioTasks 0).completedTasks + scenarioTasks.length ∧
      200 * (calculateTaskStats scenarioTasks 0).completedTasks ≤
        2 * scenarioTasks.length * (calculateTaskStats scenarioTasks 0).completionPercentage +
          scenarioTasks.length) ∧
    calculateTaskStats scenarioTasks 0 =
      { totalTasks := 3, completedTasks := 1, inProgressTasks := 1, pendingTasks := 1,
        overdueTasks := 0, completionPercentage := 33 } :=
  ⟨(calculateTaskStats_spec scenarioTasks 0 (by decide)).2.2.2.2.2.2, by decide⟩

/-- C10: on every collection, consistent or not, each counter of the
statistics aggregator is at most the total task count and the overall
completion percentage lies between 0 and 100. -/
theorem calculateTaskStats_bounds (tasks : List Task) (now : Int) :
    (calculateTaskStats tasks now).completedTasks ≤ (calculateTaskStats tasks now).totalTasks ∧
    (calculateTaskStats tasks now).inProgressTasks ≤ (calculateTaskStats tasks now).totalTasks ∧
    (calculateTaskStats tasks now).pendingTasks ≤ (calculateTaskStats tasks now).totalTasks ∧
    (calculateTaskStats tasks now).overdueTasks ≤ (calculateTaskStats tasks now).totalTasks ∧
    0 ≤ (calculateTaskStats tasks now).completionPercentage ∧
    (calculateTaskStats tasks now).completionPercentage ≤ 100 := by
  refine ⟨List.length_filter_le _ _, List.length_filter_le _ _, List.length_filter_le _ _,
    List.length_filter_le _ _, Nat.zero_le _, ?_⟩
  by_cases h : 0 < tasks.length
  · have hpct : (calculateTaskStats tasks now).completionPercentage =
        jsRatioPercent (tasks.filter (fun t => t.isCompleted)).length tasks.length := by
      simp [calculateTaskStats, if_pos h]
    rw [hpct]
    exact jsRatioPercent_le_100 _ _ (List.length_filter_le _ _) h
  · have h0 : tasks.length = 0 := by omega
    simp [calculateTaskStats, h0]

/-- C6: the priority comparator is rank(b) - rank(a) over the fixed ranks
high=3, medium=2, low=1, so sorting with order asc lists tasks with
priority ranks in non-increasing order (high to low); on the scenario
collection the result is Write report, Pay rent, Buy milk. -/
theorem priority_sort_spec :
    (∀ a b : Task, taskComparison .priority a b =
      priorityOrder b.priority - priorityOrder a.priority) ∧
    (∀ tasks : List Task, (sortTasks tasks .priority .asc).Pairwise
      (fun a b => priorityOrder b.priority ≤ priorityOrder a.priority)) ∧
    (sortTasks scenarioTasks .priority .asc).map Task.title =
      ["Write report", "Pay rent", "Buy milk"] := by
  refine ⟨fun a b => rfl, ?_, ?_⟩
  · intro tasks
    have h := @List.sorted_mergeSort Task
      (fun a b => decide (taskComparison .priority a b ≤ 0))
      (by
        intro a b c hab hbc
        simp only [decide_eq_true_eq, taskComparison] at hab hbc ⊢
        omega)
      (by
        intro a b
        simp only [Bool.or_eq_true, decide_eq_true_eq, taskComparison]
        omega)
      tasks
    have hs : sortTasks tasks .priority .asc =
        tasks.mergeSort (fun a b => decide (taskComparison .priority a b ≤ 0)) := rfl
    rw [hs]
    exact h.imp (fun hab => by
      simp only [decide_eq_true_eq, taskComparison] at hab
      omega)
  · simp [sortTasks, scenarioTasks, List.mergeSort, List.splitInTwo, List.merge,
      taskComparison, priorityOrder]

/-- Helper for C1: the collection created by one create and two toggles is
reachable. -/
theorem reachable_invariantBreaker : Reachable invariantBreaker :=
  Reachable.toggle "a" 2 (Reachable.toggle "a" 1
    (Reachable.create probeForm "a" 0 Reachable.empty))

/-- C1 counterexample: a reachable collection (create, toggle complete,
toggle back) whose task has completionPercentage 100 but isCompleted false
and status in progress, refuting the three-way equivalence. -/
theorem spec_invariant_counterexample :
    Reachable invariantBreaker ∧ ¬ (∀ t ∈ invariantBreaker, specInvariant t) := by
  refine ⟨reachable_invariantBreaker, fun h => ?_⟩
  have h1 := (h breakerTask (by decide)).1.mp (by decide)
  exact absurd h1 (by decide)

/-- C1 amended: on every reachable collection, every task satisfies the
invariant that isCompleted holds exactly when status is completed, and a
completed task has completionPercentage 100; the remaining direction of
the specification's equivalence (completionPercentage 100 implies
completed) is refuted by the counterexample. -/
theorem reachable_amended_invariant {ts : List Task} (hr : Reachable ts) :
    ∀ t ∈ ts, amendedInvariant t := by
  induction hr with
  | empty =>
    intro t ht
    cases ht
  | create fd newId now hr ih =>
    intro t ht
    rw [handleCreateTask] at ht
    rcases List.mem_append.mp ht with h | h
    · exact ih t h
    · rw [List.mem_singleton] at h
      subst h
      simp [amendedInvariant]
  | toggle id now hr ih =>
    intro t ht
    rw [handleToggleComplete] at ht
    obtain ⟨a, ha, rfl⟩ := List.mem_map.mp ht
    by_cases hid : a.id = id
    · rw [if_pos hid]
      simp only [toggledTask]
      cases hc : a.isCompleted
      · simp [amendedInvariant, hc]
      · by_cases hp : a.completionPercentage > 0 <;>
          simp [amendedInvariant, hc, hp]
    · rw [if_neg hid]
      exact ih a ha
  | update id p now hp0 hp1 hr ih =>
    intro t ht
    rw [handleUpdateProgress] at ht
    obtain ⟨a, ha, rfl⟩ := List.mem_map.mp ht
    by_cases hid : a.id = id
    · rw [if_pos hid]
      simp only [progressedTask]
      by_cases h100 : p = 100
      · simp [amendedInvariant, h100]
      · have hb : (p == 100) = false := beq_eq_false_iff_ne.mpr h100
        by_cases hpos : p > 0 <;> simp [amendedInvariant, h100, hb, hpos]
    · rw [if_neg hid]
      exact ih a ha
  | delete id hr ih =>
    intro t ht
    rw [handleDeleteTask] at ht
    exact ih t (List.mem_of_mem_filter ht)

/-- C1 amended witness: the amended invariant holds of the concrete task
of the reachable collection invariantBreaker. -/
theorem reachable_amended_invariant_witness : amendedInvariant breakerTask :=
  reachable_amended_invariant reachable_invariantBreaker breakerTask (by decide)

set_option maxRecDepth 2000 in
/-- Finite check for the month/day cycle: for every day index 0..365 of a
March-based year, the 153-day five-month encoding inverts, the produced
month lies in 1..12, the day in 1..31, and the month is January or
February exactly when the shifted month index is at least 10. -/
theorem monthDay_table : ∀ doy, doy < 366 →
    (let mp := (5 * doy + 2) / 153
     let d := doy - (153 * mp + 2) / 5 + 1
     let m := if mp < 10 then mp + 3 else mp - 9
     1 ≤ m ∧ m ≤ 12 ∧ 1 ≤ d ∧ d ≤ 31 ∧
       (if m > 2 then m - 3 else m + 9) = mp ∧
       (153 * mp + 2) / 5 + d - 1 = doy ∧
       (m ≤ 2 ↔ 10 ≤ mp)) := by decide

/-- The clamped-division decomposition of civilOfDoe inverts: within one
era, the day count rebuilt from the produced year-of-era, month and day
equals the input day-of-era index, and month and day are in range. -/
theorem civilOfDoe_spec (doe : Nat) (h : doe < 146097) :
    1 ≤ (civilOfDoe doe).2.1 ∧ (civilOfDoe doe).2.1 ≤ 12 ∧
    1 ≤ (civilOfDoe doe).2.2 ∧ (civilOfDoe doe).2.2 ≤ 31 ∧
    (civilOfDoe doe).1 ≤ 399 ∧
    365 * (civilOfDoe doe).1 + (civilOfDoe doe).1 / 4 - (civilOfDoe doe).1 / 100 +
      ((153 * (if (civilOfDoe doe).2.1 > 2 then (civilOfDoe doe).2.1 - 3
                else (civilOfDoe doe).2.1 + 9) + 2) / 5 + (civilOfDoe doe).2.2 - 1) = doe := by
  dsimp only [civilOfDoe]
  set c := (4 * doe + 3) / 146097 with hc
  set r1 := doe - 36524 * c with hr1
  set q := r1 / 1461 with hq
  set r2 := r1 - 1461 * q with hr2
  set ry := (4 * r2 + 3) / 1461 with hry
  set doy := r2 - 365 * ry with hdoy
  have hc3 : c ≤ 3 := by omega
  have hr1b : r1 ≤ 36524 := by omega
  have hq24 : q ≤ 24 := by omega
  have hr2b : r2 ≤ 1460 := by omega
  have hry3 : ry ≤ 3 := by omega
  have hdoyb : doy ≤ 365 := by omega
  have hsum : 36524 * c + 1461 * q + 365 * ry + doy = doe := by omega
  have hdiv4 : (100 * c + 4 * q + ry) / 4 = 25 * c + q := by
    have he : 100 * c + 4 * q + ry = 4 * (25 * c + q) + ry := by ring
    rw [he, Nat.mul_add_div (by norm_num)]
    omega
  have hdiv100 : (100 * c + 4 * q + ry) / 100 = c := by
    have he : 100 * c + 4 * q + ry = 100 * c + (4 * q + ry) := by ring
    rw [he, Nat.mul_add_div (by norm_num)]
    omega
  have htab := monthDay_table doy (by omega)
  dsimp only at htab
  obtain ⟨h1, h2, h3, h4, h5, h6, h7⟩ := htab
  refine ⟨h1, h2, h3, h4, by omega, ?_⟩
  rw [h5, h6, hdiv4, hdiv100]
  omega

/-- The Gregorian day-count round trip: rebuilding the day count from the
date produced by civilFromDays recovers the day count, and the produced
month and day are in calendar range. -/
theorem daysFromCivil_civilFromDays (z : Int) :
    daysFromCivil (civilFromDays z).1 (civilFromDays z).2.1 (civilFromDays z).2.2 = z ∧
    1 ≤ (civilFromDays z).2.1 ∧ (civilFromDays z).2.1 ≤ 12 ∧
    1 ≤ (civilFromDays z).2.2 ∧ (civilFromDays z).2.2 ≤ 31 := by
  have hmod0 : 0 ≤ (z + 719468) % 146097 := Int.emod_nonneg _ (by norm_num)
  have hmod1 : (z + 719468) % 146097 < 146097 := Int.emod_lt_of_pos _ (by norm_num)
  have hdecomp := Int.ediv_add_emod (z + 719468) 146097
  have hspec := civilOfDoe_spec ((z + 719468) % 146097).toNat (by omega)
  dsimp only [civilFromDays]
  set Y := (civilOfDoe ((z + 719468) % 146097).toNat).1 with hY
  set M := (civilOfDoe ((z + 719468) % 146097).toNat).2.1 with hM
  set D := (civilOfDoe ((z + 719468) % 146097).toNat).2.2 with hD
  set era := (z + 719468) / 146097 with hera
  obtain ⟨hm1, hm2, hd1, hd2, hy, hrec⟩ := hspec
  refine ⟨?_, hm1, hm2, hd1, hd2⟩
  dsimp only [daysFromCivil]
  by_cases hm : M ≤ 2
  · rw [if_pos hm, if_pos hm]
    rw [show ((Y : Int) + era * 400 + 1 - 1) / 400 = era by omega]
    rw [show ((Y : Int) + era * 400 + 1 - 1 - era * 400).toNat = Y by omega]
    rw [hrec, Int.toNat_of_nonneg hmod0]
    omega
  · rw [if_neg hm, if_neg hm]
    rw [show ((Y : Int) + era * 400 + 0) / 400 = era by omega]
    rw [show ((Y : Int) + era * 400 + 0 - era * 400).toNat = Y by omega]
    rw [hrec, Int.toNat_of_nonneg hmod0]
    omega

/-- Digit characters decode back to their value. -/
theorem digitVal_digitChar : ∀ r, r < 10 → digitVal (Nat.digitChar r) = some r := by decide

/-- A padded digit decodes to the value modulo 10. -/
theorem digitVal_dig (k : Nat) : digitVal (dig k) = some (k % 10) :=
  digitVal_digitChar (k % 10) (Nat.mod_lt _ (by norm_num))

/-- Digit characters are not sign characters. -/
theorem digitChar_ne_sign : ∀ r, r < 10 →
    Nat.digitChar r ≠ '+' ∧ Nat.digitChar r ≠ '-' := by decide

/-- Padded digits are never the plus sign. -/
theorem dig_ne_plus (k : Nat) : dig k ≠ '+' :=
  (digitChar_ne_sign (k % 10) (Nat.mod_lt _ (by norm_num))).1

/-- Padded digits are never the minus sign. -/
theorem dig_ne_minus (k : Nat) : dig k ≠ '-' :=
  (digitChar_ne_sign (k % 10) (Nat.mod_lt _ (by norm_num))).2

/-- Two zero-padded digits decode any value below 100. -/
theorem digits2_pad2 (n : Nat) (h : n < 100) :
    digits2 (dig (n / 10)) (dig n) = some n := by
  simp only [digits2, digitVal_dig, Option.bind_eq_bind, Option.some_bind,
    Option.some.injEq]
  omega

/-- Three zero-padded digits decode any value below 1000. -/
theorem digits3_pad3 (n : Nat) (h : n < 1000) :
    digits3 (dig (n / 100)) (dig (n / 10)) (dig n) = some n := by
  simp only [digits3, digits2, digitVal_dig, Option.bind_eq_bind, Option.some_bind,
    Option.some.injEq]
  omega

/-- Four zero-padded digits decode any value below 10000. -/
theorem digits4_pad4 (n : Nat) (h : n < 10000) :
    digits4 (dig (n / 1000)) (dig (n / 100)) (dig (n / 10)) (dig n) = some n := by
  simp only [digits4, digits2, digitVal_dig, Option.bind_eq_bind, Option.some_bind,
    Option.some.injEq]
  omega

/-- Six zero-padded digits decode any value below 1000000. -/
theorem digits6_pad6 (n : Nat) (h : n < 1000000) :
    digits6 (dig (n / 100000)) (dig (n / 10000)) (dig (n / 1000))
      (dig (n / 100)) (dig (n / 10)) (dig n) = some n := by
  simp only [digits6, digits3, digits2, digitVal_dig, Option.bind_eq_bind,
    Option.some_bind, Option.some.injEq]
  omega

/-- The month-to-milliseconds tail printed from a date and a
time-of-day parses back to the encoded instant. -/
theorem parseYMDTail_pads (y : Int) (M D ms : Nat)
    (hM : M < 100) (hD : D < 100) (hms : ms < 86400000) :
    parseYMDTail y (pad2 M ++ '-' :: pad2 D ++ 'T' :: pad2 (ms / 3600000) ++
      ':' :: pad2 (ms / 60000 % 60) ++ ':' :: pad2 (ms / 1000 % 60) ++
      '.' :: pad3 (ms % 1000) ++ ['Z']) =
    some (daysFromCivil y M D * 86400000 + (ms : Int)) := by
  simp only [pad2, pad3, List.cons_append, List.nil_append]
  simp only [parseYMDTail]
  rw [digits2_pad2 M hM, digits2_pad2 D hD,
      digits2_pad2 (ms / 3600000) (by omega),
      digits2_pad2 (ms / 60000 % 60) (by omega),
      digits2_pad2 (ms / 1000 % 60) (by omega),
      digits3_pad3 (ms % 1000) (by omega)]
  simp only [Option.bind_eq_bind, Option.some_bind, Option.some.injEq]
  push_cast
  omega

/-- For day counts within the JavaScript Date range, the produced year is
well within six decimal digits. -/
theorem civilFromDays_year_bound (z : Int) (hlo : -100000001 ≤ z) (hhi : z ≤ 100000000) :
    -300000 ≤ (civilFromDays z).1 ∧ (civilFromDays z).1 ≤ 300000 := by
  have hmod0 : 0 ≤ (z + 719468) % 146097 := Int.emod_nonneg _ (by norm_num)
  have hmod1 : (z + 719468) % 146097 < 146097 := Int.emod_lt_of_pos _ (by norm_num)
  have hy := (civilOfDoe_spec ((z + 719468) % 146097).toNat (by omega)).2.2.2.2.1
  have hdecomp := Int.ediv_add_emod (z + 719468) 146097
  dsimp only [civilFromDays]
  by_cases hm : (civilOfDoe ((z + 719468) % 146097).toNat).2.1 ≤ 2
  · rw [if_pos hm]
    omega
  · rw [if_neg hm]
    omega

/-- The ISO-8601 printer inverts through the ISO date-time parser on every
JavaScript-representable instant. -/
theorem parseISO_toISO (t : Int)
    (hlo : -8640000000000000 ≤ t) (hhi : t ≤ 8640000000000000) :
    parseISOChars (toISOChars t) = some t := by
  have hms0 : 0 ≤ t % 86400000 := Int.emod_nonneg _ (by norm_num)
  have hms1 : t % 86400000 < 86400000 := Int.emod_lt_of_pos _ (by norm_num)
  obtain ⟨hrt, hm1, hm2, hd1, hd2⟩ := daysFromCivil_civilFromDays (t / 86400000)
  obtain ⟨hYlo, hYhi⟩ := civilFromDays_year_bound (t / 86400000) (by omega) (by omega)
  dsimp only [toISOChars]
  set Y := (civilFromDays (t / 86400000)).1 with hY
  set M := (civilFromDays (t / 86400000)).2.1 with hM
  set D := (civilFromDays (t / 86400000)).2.2 with hD
  set ms := (t % 86400000).toNat with hms
  have hmsb : ms < 86400000 := by omega
  have hmscast : (ms : Int) = t % 86400000 := Int.toNat_of_nonneg hms0
  by_cases hyr : 0 ≤ Y ∧ Y ≤ 9999
  · rw [if_pos hyr]
    simp only [pad4, List.cons_append, List.nil_append]
    simp only [parseISOChars]
    rw [if_neg (dig_ne_plus _), if_neg (dig_ne_minus _)]
    simp only [parseBasicISO]
    rw [digits4_pad4 Y.toNat (by omega)]
    simp only [Option.bind_eq_bind, Option.some_bind]
    rw [Int.toNat_of_nonneg hyr.1]
    rw [parseYMDTail_pads Y M D ms (by omega) (by omega) hmsb]
    rw [hrt, hmscast, Int.ediv_add_emod']
  · rw [if_neg hyr]
    by_cases hneg : Y < 0
    · rw [if_pos hneg]
      simp only [pad6, List.cons_append, List.nil_append]
      simp only [parseISOChars, if_true, if_false]
      simp only [parseExpandedISO]
      rw [digits6_pad6 Y.natAbs (by omega)]
      simp only [Option.bind_eq_bind, Option.some_bind]
      rw [show (-1 : Int) * (Y.natAbs : Int) = Y by omega]
      rw [parseYMDTail_pads Y M D ms (by omega) (by omega) hmsb]
      rw [hrt, hmscast, Int.ediv_add_emod']
      rw [if_neg (show ¬ ('-' = '+') by decide)]
    · rw [if_neg hneg]
      simp only [pad6, List.cons_append, List.nil_append]
      simp only [parseISOChars, if_true, if_false]
      simp only [parseExpandedISO]
      rw [digits6_pad6 Y.natAbs (by omega)]
      simp only [Option.bind_eq_bind, Option.some_bind]
      rw [show (1 : Int) * (Y.natAbs : Int) = Y by omega]
      rw [parseYMDTail_pads Y M D ms (by omega) (by omega) hmsb]
      rw [hrt, hmscast, Int.ediv_add_emod']

/-- The string printer and parser compose to the identity on every
representable instant. -/
theorem parseISODate_toISOString (x : Int)
    (hlo : -8640000000000000 ≤ x) (hhi : x ≤ 8640000000000000) :
    parseISODate (toISOString x) = some x := by
  have hdata : (toISOString x).data = toISOChars x := rfl
  rw [parseISODate, hdata]
  exact parseISO_toISO x hlo hhi

/-- C5: saving a collection to its persisted JSON image and loading that
image back reproduces the collection field for field, the four
calendar-instant fields surviving the ISO-8601 string encode/decode round
trip, for every collection whose instants are representable by a
JavaScript Date. -/
theorem load_save_roundtrip (tasks : List Task) (h : ∀ t ∈ tasks, validDates t) :
    (saveTasks tasks).map loadStoredTask = tasks := by
  rw [saveTasks, List.map_map]
  conv_rhs => rw [← List.map_id tasks]
  refine List.map_congr_left (fun t ht => ?_)
  obtain ⟨⟨hs1, hs2⟩, ⟨hd1, hd2⟩, ⟨hc1, hc2⟩, ⟨hu1, hu2⟩⟩ := h t ht
  simp [Function.comp, loadStoredTask, saveTask,
    parseISODate_toISOString _ hs1 hs2, parseISODate_toISOString _ hd1 hd2,
    parseISODate_toISOString _ hc1 hc2, parseISODate_toISOString _ hu1 hu2]

/-- C5 witness: the persistence round trip on a concrete one-task
collection with representable dates. -/
theorem load_save_roundtrip_witness :
    (∀ t ∈ [sampleTask], validDates t) ∧
    (saveTasks [sampleTask]).map loadStoredTask = [sampleTask] :=
  ⟨by decide, load_save_roundtrip [sampleTask] (by decide)⟩

/-- C9: the load effect returns the empty collection when the storage slot
is absent; when the stored content fails to parse it returns the empty
collection and raises the non-fatal console diagnostic flag instead of
propagating the error; a successfully parsed payload is reconstructed
task by task. -/
theorem load_error_handling (parse : String → Option (List StoredTask)) :
    loadTasks parse none = ([], false) ∧
    (∀ raw, parse raw = none → loadTasks parse (some raw) = ([], true)) ∧
    (∀ raw stored, parse raw = some stored →
      loadTasks parse (some raw) = (stored.map loadStoredTask, false)) := by
  refine ⟨rfl, ?_, ?_⟩
  · intro raw hp
    simp [loadTasks, hp]
  · intro raw stored hp
    simp [loadTasks, hp]

/-- C9 witness: the theorem applied to a concrete parse function that
fails on the concrete slot content. -/
theorem load_error_handling_witness :
    loadTasks (fun _ => none) none = ([], false) ∧
    loadTasks (fun _ => none) (some "corrupt") = ([], true) :=
  ⟨(load_error_handling (fun _ => none)).1,
   (load_error_handling (fun _ => none)).2.1 "corrupt" rfl⟩

end TodoApp
